import Mathlib

/-!
Shallow embedding of pentops/outbox.pg.go.

Go strings are byte sequences; we model them as lists of naturals
(each < 256 where it matters).  The outbox table is a list of rows,
read in storage order.  Stateful operations (the test asserter's pops,
which mutate their caller-supplied message) are modelled by explicit
state passing; a transaction that returns an error is rolled back, so
on error the table is returned unchanged.
-/

namespace OutboxPG

/-- A Go string, as its byte sequence. -/
abbrev ByteStr := List Nat

/-- All bytes of a Go string are below 256. -/
def isBytes (s : ByteStr) : Prop := ∀ c ∈ s, c < 256

instance (s : ByteStr) : Decidable (isBytes s) := List.decidableBAll _ s

/-- The url.Values type: a map from key to the list of values, modelled
as an association list (the Go map is unordered; lookups go through
valuesGetAll, so list order of the groups is irrelevant). -/
abbrev Values := List (ByteStr × List ByteStr)

/-! ## net/url: query escaping (mode encodeQueryComponent) -/

/-- Bytes shouldEscape leaves alone in query components: alphanumerics
and the marks -_.~ (net/url shouldEscape). -/
def isUnreserved (c : Nat) : Bool :=
  decide ((48 ≤ c ∧ c ≤ 57) ∨ (65 ≤ c ∧ c ≤ 90) ∨ (97 ≤ c ∧ c ≤ 122) ∨
    c = 45 ∨ c = 95 ∨ c = 46 ∨ c = 126)

/-- Upper-case hex digit byte for a nibble (net/url upperhex table). -/
def hexDigit (n : Nat) : Nat := if n < 10 then 48 + n else 55 + n

/-- net/url ishex: 0-9, A-F, a-f. -/
def isHexDigit (c : Nat) : Bool :=
  decide ((48 ≤ c ∧ c ≤ 57) ∨ (65 ≤ c ∧ c ≤ 70) ∨ (97 ≤ c ∧ c ≤ 102))

/-- net/url unhex: the value of a hex digit byte. -/
def hexVal (c : Nat) : Nat :=
  if c ≤ 57 then c - 48 else if c ≤ 70 then c - 55 else c - 87

/-- url.QueryEscape: space to plus, unreserved bytes kept, everything
else percent-encoded with upper-case hex. -/
def queryEscape : ByteStr → ByteStr
  | [] => []
  | c :: rest =>
    if c = 32 then 43 :: queryEscape rest
    else if isUnreserved c then c :: queryEscape rest
    else 37 :: hexDigit (c / 16) :: hexDigit (c % 16) :: queryEscape rest

/-- url.QueryUnescape: percent must head two hex digits (else error,
modelled as none), plus decodes to space, other bytes pass through. -/
def queryUnescape : ByteStr → Option ByteStr
  | [] => some []
  | c :: rest =>
    if c = 37 then
      match rest with
      | a :: b :: rest2 =>
        if isHexDigit a && isHexDigit b then
          (queryUnescape rest2).map (fun t => (hexVal a * 16 + hexVal b) :: t)
        else none
      | _ => none
    else if c = 43 then (queryUnescape rest).map (fun t => 32 :: t)
    else (queryUnescape rest).map (fun t => c :: t)

/-! ## url.Values operations -/

/-- url.Values.Add: append the value to the key's list, creating the
key at the end of the map when absent. -/
def valuesAdd : Values → ByteStr → ByteStr → Values
  | [], k, v => [(k, [v])]
  | p :: ps, k, v =>
    if p.1 = k then (p.1, p.2 ++ [v]) :: ps else p :: valuesAdd ps k v

/-- All values stored under a key (the Go map lookup v[k]; empty list
when the key is absent). -/
def valuesGetAll (vs : Values) (k : ByteStr) : List ByteStr :=
  match vs.find? (fun p => p.1 == k) with
  | some p => p.2
  | none => []

/-- url.Values.Get: the first value for the key, or the empty string. -/
def valuesGet (vs : Values) (k : ByteStr) : ByteStr :=
  (valuesGetAll vs k).headD []

/-- Byte-wise lexicographic string order (Go string comparison, used by
slices.Sort over the keys in url.Values.Encode). -/
def strLe : ByteStr → ByteStr → Bool
  | [], _ => true
  | _ :: _, [] => false
  | a :: as, b :: bs => if a < b then true else if b < a then false else strLe as bs

/-- The keys of a Values map sorted as url.Values.Encode sorts them
(the groups travel with their keys). -/
def sortValues (vs : Values) : Values :=
  List.insertionSort (fun p q => strLe p.1 q.1 = true) vs

/-- One (key, value) pair per stored value, in group order. -/
def flattenValues : Values → List (ByteStr × ByteStr)
  | [] => []
  | (k, vlist) :: rest => vlist.map (fun v => (k, v)) ++ flattenValues rest

/-- One encoded key=value piece of the query string. -/
def pairPiece (p : ByteStr × ByteStr) : ByteStr :=
  queryEscape p.1 ++ 61 :: queryEscape p.2

/-- Join pieces with ampersands (url.Values.Encode writes an ampersand
before every piece but the first). -/
def joinAmp : List ByteStr → ByteStr
  | [] => []
  | [p] => p
  | p :: ps => p ++ 38 :: joinAmp ps

/-- url.Values.Encode: sort keys, escape keys and values, join the
key=value pieces with ampersands. -/
def valuesEncode (vs : Values) : ByteStr :=
  joinAmp ((flattenValues (sortValues vs)).map pairPiece)

/-- Split a query string at ampersands (the strings.Cut loop of
url.parseQuery; trailing and empty segments are skipped by the parser
either way). -/
def splitAmp : ByteStr → List ByteStr
  | [] => [[]]
  | c :: rest =>
    if c = 38 then [] :: splitAmp rest
    else
      match splitAmp rest with
      | [] => [[c]]
      | p :: ps => (c :: p) :: ps

/-- strings.Cut at the first occurrence of a separator byte: the part
before it and the part after it (everything, when absent). -/
def cutAt (sep : Nat) : ByteStr → ByteStr × ByteStr
  | [] => ([], [])
  | c :: rest =>
    if c = sep then ([], rest)
    else
      let p := cutAt sep rest
      (c :: p.1, p.2)

/-- One iteration of url.parseQuery: reject pieces holding a semicolon,
skip empty pieces, cut at the first equals sign, unescape key and
value (an unescape failure records the error and skips the pair), add
to the map.  The Bool is the error flag the callers here discard. -/
def parseStep (acc : Values × Bool) (piece : ByteStr) : Values × Bool :=
  if 59 ∈ piece then (acc.1, true)
  else if piece = [] then acc
  else
    let kv := cutAt 61 piece
    match queryUnescape kv.1 with
    | none => (acc.1, true)
    | some k =>
      match queryUnescape kv.2 with
      | none => (acc.1, true)
      | some v => (valuesAdd acc.1 k v, acc.2)

/-- url.ParseQuery over the whole stored headers string. -/
def parseQueryValues (s : ByteStr) : Values × Bool :=
  (splitAmp s).foldl parseStep ([], false)

/-! ## Data model -/

/-- A Go error value.  Opaque errors from external collaborators (the
codec, the driver) carry a code; the errors this package formats carry
the data they are formatted from. -/
inductive GoError where
  | external (code : Nat)
  | noRows (destination : ByteStr)
  | headerMismatch (key provided stored : ByteStr)
  | noMatch (destination : ByteStr)
  deriving DecidableEq

/-- One outbox table row: columns id, destination, headers, message. -/
structure Row where
  id : ByteStr
  destination : ByteStr
  headers : ByteStr
  message : ByteStr
  deriving DecidableEq

/-- An OutboxMessage on the sending side: MessagingTopic,
MessagingHeaders (a Go map string to string, one value per key), and
the outcome proto.Marshal would produce for its payload. -/
structure Msg where
  topic : ByteStr
  headers : List (ByteStr × ByteStr)
  marshal : Except GoError ByteStr

/-- The url.Values built by the loop headers.Add(k, v) over the
message's header map. -/
def addAllHeaders (hs : List (ByteStr × ByteStr)) : Values :=
  hs.foldl (fun m p => valuesAdd m p.1 p.2) []

/-- The row Send inserts: the fresh id, the message's topic as the
destination, the encoded headers, the marshalled payload. -/
def sentRow (m : Msg) (id : ByteStr) (msgBytes : ByteStr) : Row :=
  { id := id, destination := m.topic,
    headers := valuesEncode (addAllHeaders m.headers), message := msgBytes }

/-- NamedSender.Send: marshal the payload (returning the error when it
fails, before any insert), encode the headers, insert one row with a
fresh id via the caller's transaction; an insert failure (the
insertOutcome parameter stands for the driver's answer) is returned
unchanged and leaves no row. -/
def Send (m : Msg) (id : ByteStr) (insertOutcome : Option GoError)
    (table : List Row) : Option GoError × List Row :=
  match m.marshal with
  | .error e => (some e, table)
  | .ok msgBytes =>
    match insertOutcome with
    | some e => (some e, table)
    | none => (none, table ++ [sentRow m id msgBytes])

/-- database/sql isolation levels. -/
inductive IsolationLevel where
  | levelDefault
  | readUncommitted
  | readCommitted
  | writeCommitted
  | repeatableRead
  | snapshot
  | serializable
  | linearizable
  deriving DecidableEq

/-- sqrlx.TxOptions. -/
structure TxOptions where
  readOnly : Bool
  retryable : Bool
  isolation : IsolationLevel
  deriving DecidableEq

/-- The transaction options DBPublisher.Publish opens its batch with. -/
def publishTxOptions : TxOptions :=
  { readOnly := false, retryable := true, isolation := .readCommitted }

/-- The body of Publish's transaction: send each message in input
order, stopping at the first error.  Each message comes with the fresh
id the sender would draw and the driver's insert outcome. -/
def sendAll : List (Msg × ByteStr × Option GoError) → List Row →
    Except GoError (List Row)
  | [], table => .ok table
  | (m, id, io) :: rest, table =>
    match Send m id io table with
    | (some e, _) => .error e
    | (none, table2) => sendAll rest table2

/-- DBPublisher.Publish: one fresh read-write transaction with the
options above; the body appends each message in order; an error rolls
the whole batch back (table unchanged), success commits.  The options
used are returned alongside so that theorems can name them. -/
def Publish (msgs : List (Msg × ByteStr × Option GoError))
    (table : List Row) : TxOptions × Option GoError × List Row :=
  (publishTxOptions,
    match sendAll msgs table with
    | .error e => (some e, table)
    | .ok table2 => (none, table2))

/-- The row Send would insert for one message of a batch, when its
payload marshals. -/
def rowOf (input : Msg × ByteStr × Option GoError) : Option Row :=
  match input.1.marshal with
  | .error _ => none
  | .ok msgBytes => some (sentRow input.1 input.2.1 msgBytes)

/-! ## Test harness: the asserter -/

/-- A caller-supplied OutboxMessage on the popping side: its topic and
header map, the decoded state it currently holds (the bytes last
unmarshalled into it), and the outcome proto.Unmarshal would produce
on given bytes (none is success, which overwrites the content). -/
structure TestMsg where
  topic : ByteStr
  headers : List (ByteStr × ByteStr)
  content : ByteStr
  unmarshal : ByteStr → Option GoError

/-- Go map indexing m[k] for a string-to-string map: the value, or the
empty string when absent. -/
def mapGet (hs : List (ByteStr × ByteStr)) (k : ByteStr) : ByteStr :=
  match hs.find? (fun p => p.1 == k) with
  | some p => p.2
  | none => []

/-- The default ServiceNameHeader of NewOutboxAsserter, and the key
MessageMatch.Attempt reads: the bytes of the string grpc-service. -/
def grpcServiceKey : ByteStr :=
  [103, 114, 112, 99, 45, 115, 101, 114, 118, 105, 99, 101]

/-- OutboxAsserter.PopMessage with ServiceNameHeader sh: select the
first row for the message's topic (no rows is an error); parse its
headers, compare the stored service header with the one the message
declares (mismatch is an error, nothing deleted); unmarshal the
payload into the message; delete the row by id.  An error rolls the
transaction back, so the table is returned unchanged then — but the
in-memory message keeps any mutation already applied. -/
def PopMessage (sh : ByteStr) (deleteOutcome : Option GoError)
    (message : TestMsg) (table : List Row) :
    Option GoError × TestMsg × List Row :=
  match table.find? (fun r => r.destination == message.topic) with
  | none => (some (.noRows message.topic), message, table)
  | some r =>
    let stored := valuesGet (parseQueryValues r.headers).1 sh
    let provided := mapGet message.headers sh
    if provided ≠ stored then
      (some (.headerMismatch sh provided stored), message, table)
    else
      match message.unmarshal r.message with
      | some e => (some e, message, table)
      | none =>
        let message2 := { message with content := r.message }
        match deleteOutcome with
        | some e => (some e, message2, table)
        | none => (none, message2, table.filter (fun x => !(x.id == r.id)))

/-- A MessageMatch: the target message it decodes into and the
caller-supplied predicate list. -/
structure MessageMatch where
  target : TestMsg
  conditions : List (TestMsg → Bool)

/-- MessageMatch.Attempt: reject (no error) when the claimed service
name differs from the target's header under the fixed key
grpc-service; unmarshal the candidate payload into the target (an
error aborts); accept when every predicate holds on the decoded
target. -/
def MessageMatch.Attempt (m : MessageMatch) (serviceName : ByteStr)
    (data : ByteStr) : Except GoError Bool × MessageMatch :=
  if serviceName ≠ mapGet m.target.headers grpcServiceKey then (.ok false, m)
  else
    match m.target.unmarshal data with
    | some e => (.error e, m)
    | none =>
      let m2 : MessageMatch := { m with target := { m.target with content := data } }
      (.ok (m2.conditions.all (fun c => c m2.target)), m2)

/-- The stored service header PopMatching hands the matcher for a row:
the row's headers parsed, read under the configured key. -/
def storedService (sh : ByteStr) (r : Row) : ByteStr :=
  valuesGet (parseQueryValues r.headers).1 sh

/-- The candidate loop of PopMatching: walk the selected rows in read
order, attempting each; an attempt error aborts with it, acceptance
stops with the row's id, rejection moves on.  The matcher state is
threaded through every attempt made. -/
def popLoop {σ : Type} (sh : ByteStr)
    (att : σ → ByteStr → ByteStr → Except GoError Bool × σ) :
    List Row → σ → Except GoError (Option ByteStr) × σ
  | [], s => (.ok none, s)
  | r :: rows, s =>
    let res := att s (storedService sh r) r.message
    match res.1 with
    | .error e => (.error e, res.2)
    | .ok true => (.ok (some r.id), res.2)
    | .ok false => popLoop sh att rows res.2

/-- The matcher states reached when every row in the list is attempted
and rejected without error: the final state, or none when some attempt
accepts or errors. -/
def runRejects {σ : Type} (sh : ByteStr)
    (att : σ → ByteStr → ByteStr → Except GoError Bool × σ) :
    List Row → σ → Option σ
  | [], s => some s
  | r :: rows, s =>
    let res := att s (storedService sh r) r.message
    match res.1 with
    | .ok false => runRejects sh att rows res.2
    | _ => none

/-- OutboxAsserter.PopMatching: select every row for the matcher's
topic in storage order, run the candidate loop; an error or no
accepted row rolls back (table unchanged, and an accepted row whose id
is the empty string falls into the no-match report as in the source's
foundOne sentinel); otherwise delete the accepted row by id and
commit. -/
def PopMatching {σ : Type} (sh : ByteStr) (topic : ByteStr)
    (att : σ → ByteStr → ByteStr → Except GoError Bool × σ) (s : σ)
    (table : List Row) : Option GoError × σ × List Row :=
  let rows := table.filter (fun r => r.destination == topic)
  match popLoop sh att rows s with
  | (.error e, s2) => (some e, s2, table)
  | (.ok none, s2) => (some (.noMatch topic), s2, table)
  | (.ok (some foundOne), s2) =>
    if foundOne = [] then (some (.noMatch topic), s2, table)
    else (none, s2, table.filter (fun r => !(r.id == foundOne)))

/-- PopMatching applied to a MessageMatch, whose MessagingTopic is its
target's topic and whose state is the matcher value itself. -/
def popMatchingMM (sh : ByteStr) (m : MessageMatch) (table : List Row) :
    Option GoError × MessageMatch × List Row :=
  PopMatching sh m.target.topic (fun st sn d => MessageMatch.Attempt st sn d) m table

/-- OutboxAsserter.PurgeAll: delete every row, no predicate. -/
def PurgeAll (_table : List Row) : List Row := []

/-- The per-destination counts AssertNoMessages reads: group the rows
by destination, keep the groups with a positive count. -/
def groupCounts (table : List Row) : List (ByteStr × Nat) :=
  (((table.map (fun r => r.destination)).dedup).map
    (fun d => (d, table.countP (fun r => r.destination == d)))).filter
    (fun p => 0 < p.2)

/-- OutboxAsserter.AssertNoMessages passes exactly when no destination
group is non-empty. -/
def AssertNoMessages (table : List Row) : Bool :=
  (groupCounts table).isEmpty

/-- Every key and every value of a Values map is a byte string. -/
def bytesValues (vs : Values) : Prop :=
  ∀ p ∈ vs, isBytes p.1 ∧ ∀ v ∈ p.2, isBytes v

instance (vs : Values) : Decidable (bytesValues vs) := by
  unfold bytesValues; infer_instance

/-- The values a flat pair list holds under a key, in order. -/
def keyVals (ps : List (ByteStr × ByteStr)) (k : ByteStr) : List ByteStr :=
  (ps.filter (fun p => p.1 == k)).map (fun p => p.2)

/-- All values under a key when duplicate groups are allowed: the
concatenation over every group with that key. -/
def getAllDup : Values → ByteStr → List ByteStr
  | [], _ => []
  | (k1, vl) :: rest, k => (if k1 = k then vl else []) ++ getAllDup rest k

/-! ## Codec lemmas: escaping round-trips -/

theorem hexDigit_spec (n : Nat) (h : n < 16) :
    isHexDigit (hexDigit n) = true ∧ hexVal (hexDigit n) = n := by
  interval_cases n <;> exact ⟨by decide, by decide⟩

theorem hexDigit_ne_sep (n : Nat) :
    hexDigit n ≠ 38 ∧ hexDigit n ≠ 59 ∧ hexDigit n ≠ 61 := by
  unfold hexDigit; split <;> omega

theorem queryEscape_mem_ne (s : ByteStr) (x : Nat) (hx : x ∈ queryEscape s) :
    x ≠ 38 ∧ x ≠ 59 ∧ x ≠ 61 := by
  induction s with
  | nil => simp [queryEscape] at hx
  | cons c rest ih =>
    by_cases h32 : c = 32
    · rw [queryEscape, if_pos h32] at hx
      rcases List.mem_cons.mp hx with rfl | hx
      · exact ⟨by decide, by decide, by decide⟩
      · exact ih hx
    · by_cases hu : isUnreserved c = true
      · rw [queryEscape, if_neg h32, if_pos hu] at hx
        rcases List.mem_cons.mp hx with rfl | hx
        · refine ⟨?_, ?_, ?_⟩ <;> (rintro rfl; revert hu; decide)
        · exact ih hx
      · rw [queryEscape, if_neg h32, if_neg hu] at hx
        rcases List.mem_cons.mp hx with rfl | hx
        · exact ⟨by decide, by decide, by decide⟩
        rcases List.mem_cons.mp hx with rfl | hx
        · exact hexDigit_ne_sep _
        rcases List.mem_cons.mp hx with rfl | hx
        · exact hexDigit_ne_sep _
        · exact ih hx

theorem queryUnescape_cons (c : Nat) (t : ByteStr) :
    queryUnescape (c :: t) =
      if c = 37 then
        match t with
        | a :: b :: t2 =>
          if isHexDigit a && isHexDigit b then
            (queryUnescape t2).map (fun r => (hexVal a * 16 + hexVal b) :: r)
          else none
        | _ => none
      else if c = 43 then (queryUnescape t).map (fun r => 32 :: r)
      else (queryUnescape t).map (fun r => c :: r) := by
  cases t with
  | nil => rfl
  | cons a t2 => cases t2 <;> rfl

theorem queryUnescape_queryEscape (s : ByteStr) (hs : isBytes s) :
    queryUnescape (queryEscape s) = some s := by
  induction s with
  | nil => rfl
  | cons c rest ih =>
    have hc : c < 256 := hs c (List.mem_cons_self _ _)
    have hrest : isBytes rest := fun x hx => hs x (List.mem_cons_of_mem _ hx)
    by_cases h32 : c = 32
    · subst h32
      rw [queryEscape, if_pos rfl, queryUnescape_cons,
        if_neg (by decide : ¬ (43 : Nat) = 37), if_pos rfl, ih hrest]
      rfl
    · by_cases hu : isUnreserved c = true
      · have h37 : ¬ c = 37 := by rintro rfl; revert hu; decide
        have h43 : ¬ c = 43 := by rintro rfl; revert hu; decide
        rw [queryEscape, if_neg h32, if_pos hu, queryUnescape_cons,
          if_neg h37, if_neg h43, ih hrest]
        rfl
      · have hdiv : c / 16 < 16 := by omega
        have hmod : c % 16 < 16 := by omega
        rw [queryEscape, if_neg h32, if_neg hu, queryUnescape_cons, if_pos rfl]
        dsimp only
        rw [(hexDigit_spec _ hdiv).1, (hexDigit_spec _ hmod).1]
        rw [if_pos (by decide : ((true && true) = true))]
        rw [ih hrest, (hexDigit_spec _ hdiv).2, (hexDigit_spec _ hmod).2]
        have hdm : c / 16 * 16 + c % 16 = c := by omega
        rw [hdm]
        rfl

/-! ## Codec lemmas: splitting inverts joining -/

theorem splitAmp_no_sep (p : ByteStr) (hp : 38 ∉ p) : splitAmp p = [p] := by
  induction p with
  | nil => rfl
  | cons c rest ih =>
    have hc : c ≠ 38 := fun h => hp (h ▸ List.mem_cons_self _ _)
    have hrest : 38 ∉ rest := fun h => hp (List.mem_cons_of_mem _ h)
    rw [splitAmp, if_neg hc, ih hrest]

theorem splitAmp_append (p t : ByteStr) (hp : 38 ∉ p) :
    splitAmp (p ++ 38 :: t) = p :: splitAmp t := by
  induction p with
  | nil => simp [splitAmp]
  | cons c rest ih =>
    have hc : c ≠ 38 := fun h => hp (h ▸ List.mem_cons_self _ _)
    have hrest : 38 ∉ rest := fun h => hp (List.mem_cons_of_mem _ h)
    rw [List.cons_append, splitAmp, if_neg hc, ih hrest]

theorem splitAmp_joinAmp (ps : List ByteStr) (h : ∀ p ∈ ps, 38 ∉ p)
    (hne : ps ≠ []) : splitAmp (joinAmp ps) = ps := by
  induction ps with
  | nil => exact absurd rfl hne
  | cons p rest ih =>
    cases rest with
    | nil => exact splitAmp_no_sep p (h p (List.mem_cons_self _ _))
    | cons q rest2 =>
      have hj : joinAmp (p :: q :: rest2) = p ++ 38 :: joinAmp (q :: rest2) := rfl
      rw [hj, splitAmp_append _ _ (h p (List.mem_cons_self _ _)),
        ih (fun x hx => h x (List.mem_cons_of_mem _ hx)) (List.cons_ne_nil _ _)]

theorem cutAt_append (sep : Nat) (a b : ByteStr) (ha : sep ∉ a) :
    cutAt sep (a ++ sep :: b) = (a, b) := by
  induction a with
  | nil => simp [cutAt]
  | cons c rest ih =>
    have hc : c ≠ sep := fun h => ha (h ▸ List.mem_cons_self _ _)
    have hrest : sep ∉ rest := fun h => ha (List.mem_cons_of_mem _ h)
    rw [List.cons_append, cutAt, if_neg hc, ih hrest]

theorem pairPiece_not_mem (p : ByteStr × ByteStr) :
    38 ∉ pairPiece p ∧ 59 ∉ pairPiece p := by
  constructor <;> intro h <;> rcases List.mem_append.mp h with h | h
  · exact (queryEscape_mem_ne _ _ h).1 rfl
  · rcases List.mem_cons.mp h with h | h
    · exact absurd h (by decide)
    · exact (queryEscape_mem_ne _ _ h).1 rfl
  · exact (queryEscape_mem_ne _ _ h).2.1 rfl
  · rcases List.mem_cons.mp h with h | h
    · exact absurd h (by decide)
    · exact (queryEscape_mem_ne _ _ h).2.1 rfl

theorem parseStep_pairPiece (acc : Values × Bool) (k v : ByteStr)
    (hk : isBytes k) (hv : isBytes v) :
    parseStep acc (pairPiece (k, v)) = (valuesAdd acc.1 k v, acc.2) := by
  have hne : pairPiece (k, v) ≠ [] := by
    simp [pairPiece]
  have hcut : cutAt 61 (pairPiece (k, v)) = (queryEscape k, queryEscape v) :=
    cutAt_append 61 _ _ (fun h => (queryEscape_mem_ne _ _ h).2.2 rfl)
  rw [parseStep, if_neg (pairPiece_not_mem (k, v)).2, if_neg hne]
  rw [hcut]
  dsimp only
  rw [queryUnescape_queryEscape k hk, queryUnescape_queryEscape v hv]

theorem foldl_parseStep (ps : List (ByteStr × ByteStr)) (acc : Values × Bool)
    (h : ∀ p ∈ ps, isBytes p.1 ∧ isBytes p.2) :
    (ps.map pairPiece).foldl parseStep acc =
      (ps.foldl (fun m p => valuesAdd m p.1 p.2) acc.1, acc.2) := by
  induction ps generalizing acc with
  | nil => rfl
  | cons p rest ih =>
    have hp := h p (List.mem_cons_self _ _)
    rw [List.map_cons, List.foldl_cons, List.foldl_cons]
    have : parseStep acc (pairPiece p) = (valuesAdd acc.1 p.1 p.2, acc.2) :=
      parseStep_pairPiece acc p.1 p.2 hp.1 hp.2
    rw [this, ih (valuesAdd acc.1 p.1 p.2, acc.2)
      (fun q hq => h q (List.mem_cons_of_mem _ hq))]

/-! ## Values map lemmas -/

theorem valuesGetAll_nil (k : ByteStr) : valuesGetAll [] k = [] := rfl

theorem valuesGetAll_cons (k1 : ByteStr) (vl : List ByteStr) (vs : Values)
    (k : ByteStr) :
    valuesGetAll ((k1, vl) :: vs) k = if k1 = k then vl else valuesGetAll vs k := by
  by_cases h : k1 = k
  · rw [valuesGetAll, List.find?_cons_of_pos _ (by simp [h]), if_pos h]
  · rw [valuesGetAll, List.find?_cons_of_neg _ (by simp [h]), if_neg h]
    rfl

theorem valuesGetAll_valuesAdd (m : Values) (k1 v1 k : ByteStr) :
    valuesGetAll (valuesAdd m k1 v1) k =
      valuesGetAll m k ++ (if k1 = k then [v1] else []) := by
  induction m with
  | nil =>
    rw [valuesAdd]
    by_cases h : k1 = k <;> simp [valuesGetAll_cons, valuesGetAll_nil, h]
  | cons p ps ih =>
    obtain ⟨pk, pv⟩ := p
    by_cases hp : pk = k1
    · subst hp
      rw [valuesAdd, if_pos rfl, valuesGetAll_cons, valuesGetAll_cons]
      by_cases hk : pk = k <;> simp [hk]
    · rw [valuesAdd, if_neg hp, valuesGetAll_cons, valuesGetAll_cons, ih]
      by_cases hk : pk = k
      · have hk1 : ¬ k1 = k := fun e => hp (hk.trans e.symm)
        simp [hk, hk1]
      · simp [hk]

theorem valuesGetAll_foldl_add (ps : List (ByteStr × ByteStr)) (m : Values)
    (k : ByteStr) :
    valuesGetAll (ps.foldl (fun acc p => valuesAdd acc p.1 p.2) m) k =
      valuesGetAll m k ++ keyVals ps k := by
  induction ps generalizing m with
  | nil => simp [keyVals]
  | cons p rest ih =>
    rw [List.foldl_cons, ih, valuesGetAll_valuesAdd]
    by_cases h : p.1 = k
    · rw [if_pos h, List.append_assoc]
      congr 1
      simp [keyVals, List.filter_cons, h]
    · rw [if_neg h, List.append_nil]
      congr 1
      simp [keyVals, List.filter_cons, h]

theorem keyVals_append (a b : List (ByteStr × ByteStr)) (k : ByteStr) :
    keyVals (a ++ b) k = keyVals a k ++ keyVals b k := by
  simp [keyVals, List.filter_append]

theorem keyVals_map_pair (k1 : ByteStr) (vl : List ByteStr) (k : ByteStr) :
    keyVals (vl.map (fun v => (k1, v))) k = if k1 = k then vl else [] := by
  unfold keyVals
  rw [List.filter_map, List.map_map]
  by_cases h : k1 = k
  · rw [if_pos h]
    have hf : (fun p : ByteStr × ByteStr => p.1 == k) ∘ (fun v => (k1, v)) =
        fun _ => true := by
      funext v; simp [h]
    have hg : (fun p : ByteStr × ByteStr => p.2) ∘ (fun v => (k1, v)) = id := by
      funext v; rfl
    rw [hf, hg, List.filter_true, List.map_id]
  · rw [if_neg h]
    have hf : (fun p : ByteStr × ByteStr => p.1 == k) ∘ (fun v => (k1, v)) =
        fun _ => false := by
      funext v; simp [h]
    rw [hf, List.filter_false, List.map_nil]

theorem keyVals_flattenValues (vs : Values) (k : ByteStr) :
    keyVals (flattenValues vs) k = getAllDup vs k := by
  induction vs with
  | nil => rfl
  | cons g rest ih =>
    obtain ⟨k1, vl⟩ := g
    rw [flattenValues, getAllDup, keyVals_append, keyVals_map_pair, ih]

theorem getAllDup_not_mem (vs : Values) (k : ByteStr)
    (h : k ∉ vs.map Prod.fst) : getAllDup vs k = [] := by
  induction vs with
  | nil => rfl
  | cons g rest ih =>
    obtain ⟨k1, vl⟩ := g
    have hk1 : ¬ k1 = k := fun e => h (by simp [e])
    rw [getAllDup, if_neg hk1, List.nil_append]
    exact ih (fun hm => h (by simp; exact Or.inr (by simpa using hm)))

theorem getAllDup_eq_getAll (vs : Values) (k : ByteStr)
    (h : (vs.map Prod.fst).Nodup) : getAllDup vs k = valuesGetAll vs k := by
  induction vs with
  | nil => rfl
  | cons g rest ih =>
    obtain ⟨k1, vl⟩ := g
    rw [List.map_cons] at h
    have hn := List.nodup_cons.mp h
    rw [getAllDup, valuesGetAll_cons]
    by_cases hk : k1 = k
    · subst hk
      rw [if_pos rfl, if_pos rfl, getAllDup_not_mem rest _ hn.1, List.append_nil]
    · rw [if_neg hk, if_neg hk, List.nil_append]
      exact ih hn.2

theorem valuesGetAll_perm (vs1 vs2 : Values) (hp : vs1.Perm vs2) :
    (vs1.map Prod.fst).Nodup →
      ∀ k, valuesGetAll vs1 k = valuesGetAll vs2 k := by
  induction hp with
  | nil => exact fun _ _ => rfl
  | cons x h ih =>
    intro hn k
    obtain ⟨xk, xv⟩ := x
    rw [List.map_cons] at hn
    have hn2 := (List.nodup_cons.mp hn).2
    rw [valuesGetAll_cons, valuesGetAll_cons]
    by_cases hk : xk = k
    · rw [if_pos hk, if_pos hk]
    · rw [if_neg hk, if_neg hk]
      exact ih hn2 k
  | swap x y t =>
    intro hn k
    obtain ⟨xk, xv⟩ := x
    obtain ⟨yk, yv⟩ := y
    rw [List.map_cons, List.map_cons] at hn
    have hxy : yk ≠ xk := by
      have hn2 := List.nodup_cons.mp hn
      exact fun e => hn2.1 (by simp [e])
    simp only [valuesGetAll_cons]
    by_cases h1 : yk = k
    · have h2 : ¬ xk = k := fun h2 => hxy (h1.trans h2.symm)
      rw [if_pos h1, if_neg h2, if_pos h1]
    · rw [if_neg h1, if_neg h1]
  | trans h1 h2 ih1 ih2 =>
    intro hn k
    exact (ih1 hn k).trans (ih2 (((h1.map Prod.fst).nodup_iff).mp hn) k)

/-! ## The codec round trip -/

theorem bytes_flattenValues (vs : Values) (hb : bytesValues vs) :
    ∀ p ∈ flattenValues vs, isBytes p.1 ∧ isBytes p.2 := by
  induction vs with
  | nil => intro p hp; simp [flattenValues] at hp
  | cons g rest ih =>
    obtain ⟨k1, vl⟩ := g
    intro p hp
    rw [flattenValues] at hp
    rcases List.mem_append.mp hp with hp | hp
    · rcases List.mem_map.mp hp with ⟨v, hv, rfl⟩
      have hg := hb (k1, vl) (List.mem_cons_self _ _)
      exact ⟨hg.1, hg.2 v hv⟩
    · exact ih (fun q hq => hb q (List.mem_cons_of_mem _ hq)) p hp

theorem parseQueryValues_valuesEncode (vs : Values) (hb : bytesValues vs) :
    parseQueryValues (valuesEncode vs) =
      (addAllHeaders (flattenValues (sortValues vs)), false) := by
  have hsb : bytesValues (sortValues vs) := fun p hp =>
    hb p ((List.perm_insertionSort _ vs).subset hp)
  have hmem := bytes_flattenValues _ hsb
  by_cases hfl : flattenValues (sortValues vs) = []
  · rw [valuesEncode, hfl]
    rfl
  · have h38 : ∀ piece ∈ (flattenValues (sortValues vs)).map pairPiece,
        38 ∉ piece := by
      intro piece hpc
      rcases List.mem_map.mp hpc with ⟨p, hp, rfl⟩
      exact (pairPiece_not_mem p).1
    have hne : (flattenValues (sortValues vs)).map pairPiece ≠ [] := by
      simpa using hfl
    rw [valuesEncode, parseQueryValues, splitAmp_joinAmp _ h38 hne,
      foldl_parseStep (flattenValues (sortValues vs)) ([], false) hmem]
    rfl

theorem values_roundtrip_getAll (vs : Values) (hb : bytesValues vs)
    (hn : (vs.map Prod.fst).Nodup) :
    (parseQueryValues (valuesEncode vs)).2 = false ∧
      ∀ k, valuesGetAll (parseQueryValues (valuesEncode vs)).1 k =
        valuesGetAll vs k := by
  rw [parseQueryValues_valuesEncode vs hb]
  refine ⟨rfl, fun k => ?_⟩
  have h1 : valuesGetAll (addAllHeaders (flattenValues (sortValues vs))) k
      = keyVals (flattenValues (sortValues vs)) k := by
    have h2 := valuesGetAll_foldl_add (flattenValues (sortValues vs)) [] k
    simpa [addAllHeaders] using h2
  have hperm : (sortValues vs).Perm vs := List.perm_insertionSort _ vs
  have hnsort : ((sortValues vs).map Prod.fst).Nodup :=
    ((hperm.map Prod.fst).nodup_iff).mpr hn
  rw [h1, keyVals_flattenValues, getAllDup_eq_getAll _ _ hnsort]
  exact valuesGetAll_perm _ _ hperm hnsort k

/-! ## The headers a sent message stores -/

theorem valuesAdd_not_mem (m : Values) (k v : ByteStr)
    (h : k ∉ m.map Prod.fst) : valuesAdd m k v = m ++ [(k, [v])] := by
  induction m with
  | nil => rfl
  | cons p ps ih =>
    obtain ⟨pk, pv⟩ := p
    rw [List.map_cons] at h
    have hpk : ¬ pk = k := fun e => h (by rw [show (pk, pv).1 = k from e]; exact List.mem_cons_self _ _)
    rw [valuesAdd, if_neg hpk, ih (fun hm => h (List.mem_cons_of_mem _ hm)),
      List.cons_append]

theorem foldl_valuesAdd_map (hs : List (ByteStr × ByteStr)) (m : Values)
    (hdisj : ∀ p ∈ hs, p.1 ∉ m.map Prod.fst)
    (hnd : (hs.map Prod.fst).Nodup) :
    hs.foldl (fun acc p => valuesAdd acc p.1 p.2) m =
      m ++ hs.map (fun p => (p.1, [p.2])) := by
  induction hs generalizing m with
  | nil => simp
  | cons p rest ih =>
    rw [List.map_cons] at hnd
    have hnd2 := List.nodup_cons.mp hnd
    rw [List.foldl_cons,
      valuesAdd_not_mem m p.1 p.2 (hdisj p (List.mem_cons_self _ _)), ih]
    · simp
    · intro q hq
      rw [List.map_append]
      intro hmem
      rcases List.mem_append.mp hmem with hmem | hmem
      · exact hdisj q (List.mem_cons_of_mem _ hq) hmem
      · have hq1 : q.1 = p.1 := by simpa using hmem
        exact hnd2.1 (hq1 ▸ List.mem_map_of_mem Prod.fst hq)
    · exact hnd2.2

theorem addAllHeaders_eq (hs : List (ByteStr × ByteStr))
    (hnd : (hs.map Prod.fst).Nodup) :
    addAllHeaders hs = hs.map (fun p => (p.1, [p.2])) := by
  have h := foldl_valuesAdd_map hs [] (by simp) hnd
  simpa [addAllHeaders] using h

theorem valuesGet_map_single (hs : List (ByteStr × ByteStr)) (k : ByteStr) :
    valuesGet (hs.map (fun p => (p.1, [p.2]))) k = mapGet hs k := by
  induction hs with
  | nil => rfl
  | cons p rest ih =>
    obtain ⟨pk, pv⟩ := p
    rw [List.map_cons]
    dsimp only
    by_cases h : pk = k
    · rw [valuesGet, valuesGetAll_cons, if_pos h, mapGet,
        List.find?_cons_of_pos _ (by simp [h])]
      rfl
    · rw [valuesGet, valuesGetAll_cons, if_neg h, mapGet,
        List.find?_cons_of_neg _ (by simp [h])]
      exact ih

theorem storedHeader_eq_mapGet (hs : List (ByteStr × ByteStr))
    (hnd : (hs.map Prod.fst).Nodup)
    (hb : ∀ p ∈ hs, isBytes p.1 ∧ isBytes p.2) (k : ByteStr) :
    valuesGet (parseQueryValues (valuesEncode (addAllHeaders hs))).1 k =
      mapGet hs k := by
  have heq := addAllHeaders_eq hs hnd
  have hbv : bytesValues (addAllHeaders hs) := by
    rw [heq]
    intro p hp
    rcases List.mem_map.mp hp with ⟨q, hq, rfl⟩
    refine ⟨(hb q hq).1, fun v hv => ?_⟩
    have hv2 : v = q.2 := by simpa using hv
    exact hv2 ▸ (hb q hq).2
  have hnd2 : ((addAllHeaders hs).map Prod.fst).Nodup := by
    rw [heq, List.map_map]
    have hcomp : Prod.fst ∘ (fun p : ByteStr × ByteStr => (p.1, [p.2])) =
        Prod.fst := by
      funext p; rfl
    rw [hcomp]
    exact hnd
  have hrt := (values_roundtrip_getAll _ hbv hnd2).2 k
  have hget : valuesGet (parseQueryValues (valuesEncode (addAllHeaders hs))).1 k
      = valuesGet (addAllHeaders hs) k := by
    rw [valuesGet, hrt]
    rfl
  rw [hget, heq, valuesGet_map_single]

/-! ## The PopMatching candidate loop -/

theorem popLoop_cons {σ : Type} (sh : ByteStr)
    (att : σ → ByteStr → ByteStr → Except GoError Bool × σ)
    (r : Row) (rows : List Row) (s : σ) :
    popLoop sh att (r :: rows) s =
      match (att s (storedService sh r) r.message).1 with
      | .error e => (.error e, (att s (storedService sh r) r.message).2)
      | .ok true => (.ok (some r.id), (att s (storedService sh r) r.message).2)
      | .ok false => popLoop sh att rows (att s (storedService sh r) r.message).2 :=
  rfl

theorem runRejects_cons {σ : Type} (sh : ByteStr)
    (att : σ → ByteStr → ByteStr → Except GoError Bool × σ)
    (r : Row) (rows : List Row) (s : σ) :
    runRejects sh att (r :: rows) s =
      match (att s (storedService sh r) r.message).1 with
      | .ok false => runRejects sh att rows (att s (storedService sh r) r.message).2
      | _ => none :=
  rfl

theorem popLoop_append_rejects {σ : Type} (sh : ByteStr)
    (att : σ → ByteStr → ByteStr → Except GoError Bool × σ)
    (pre rest : List Row) (s s2 : σ)
    (h : runRejects sh att pre s = some s2) :
    popLoop sh att (pre ++ rest) s = popLoop sh att rest s2 := by
  induction pre generalizing s with
  | nil =>
    rw [runRejects] at h
    injection h with h
    rw [h]
    rfl
  | cons r pre ih =>
    rw [runRejects_cons] at h
    rw [List.cons_append, popLoop_cons]
    cases hres : (att s (storedService sh r) r.message).1 with
    | error e =>
      rw [hres] at h
      exact absurd h (by simp)
    | ok b =>
      rw [hres] at h
      cases b with
      | false => exact ih _ h
      | true => exact absurd h (by simp)

theorem popLoop_ok_some {σ : Type} (sh : ByteStr)
    (att : σ → ByteStr → ByteStr → Except GoError Bool × σ)
    (rows : List Row) (s : σ) (fid : ByteStr) (s2 : σ)
    (h : popLoop sh att rows s = (.ok (some fid), s2)) :
    ∃ pre r post s0, rows = pre ++ r :: post ∧
      runRejects sh att pre s = some s0 ∧
      att s0 (storedService sh r) r.message = (.ok true, s2) ∧ fid = r.id := by
  induction rows generalizing s with
  | nil =>
    rw [popLoop] at h
    exact absurd h (by simp)
  | cons r rows ih =>
    rw [popLoop_cons] at h
    cases hres : (att s (storedService sh r) r.message).1 with
    | error e =>
      rw [hres] at h
      exact absurd h (by simp)
    | ok b =>
      rw [hres] at h
      cases b with
      | false =>
        rcases ih _ h with ⟨pre, r2, post, s0, hrows, hrej, hacc, hfid⟩
        refine ⟨r :: pre, r2, post, s0, by rw [hrows, List.cons_append], ?_, hacc, hfid⟩
        rw [runRejects_cons, hres]
        exact hrej
      | true =>
        have h1 : fid = r.id := by
          have := congrArg Prod.fst h
          simpa using this.symm
        have h2 : (att s (storedService sh r) r.message).2 = s2 := by
          have := congrArg Prod.snd h
          simpa using this
        refine ⟨[], r, rows, s, rfl, rfl, ?_, h1⟩
        have := Prod.mk.eta (p := att s (storedService sh r) r.message)
        rw [← this, hres, h2]

theorem popLoop_ok_none {σ : Type} (sh : ByteStr)
    (att : σ → ByteStr → ByteStr → Except GoError Bool × σ)
    (rows : List Row) (s s2 : σ) :
    popLoop sh att rows s = (.ok none, s2) ↔
      runRejects sh att rows s = some s2 := by
  induction rows generalizing s with
  | nil =>
    rw [popLoop, runRejects]
    constructor
    · intro h; injection h with _ h; rw [h]
    · intro h; injection h with h; rw [h]
  | cons r rows ih =>
    rw [popLoop_cons, runRejects_cons]
    cases hres : (att s (storedService sh r) r.message).1 with
    | error e => simp
    | ok b =>
      cases b with
      | false => exact ih _
      | true => simp

theorem popLoop_stops {σ : Type} (sh : ByteStr)
    (att : σ → ByteStr → ByteStr → Except GoError Bool × σ)
    (pre : List Row) (r : Row) (s s0 : σ)
    (hrej : runRejects sh att pre s = some s0)
    (hacc : (att s0 (storedService sh r) r.message).1 = .ok true)
    (post : List Row) :
    popLoop sh att (pre ++ r :: post) s =
      (.ok (some r.id), (att s0 (storedService sh r) r.message).2) := by
  rw [popLoop_append_rejects sh att pre _ s s0 hrej, popLoop_cons, hacc]

theorem PopMatching_eq {σ : Type} (sh topic : ByteStr)
    (att : σ → ByteStr → ByteStr → Except GoError Bool × σ) (s : σ)
    (table : List Row) :
    PopMatching sh topic att s table =
      match popLoop sh att (table.filter (fun r => r.destination == topic)) s with
      | (.error e, s2) => (some e, s2, table)
      | (.ok none, s2) => (some (.noMatch topic), s2, table)
      | (.ok (some foundOne), s2) =>
        if foundOne = [] then (some (.noMatch topic), s2, table)
        else (none, s2, table.filter (fun r => !(r.id == foundOne))) :=
  rfl

theorem length_filter_id (table : List Row) (fid : ByteStr)
    (hnd : (table.map Row.id).Nodup) :
    table.length ≤ (table.filter (fun r => !(r.id == fid))).length + 1 := by
  induction table with
  | nil => simp
  | cons r rest ih =>
    rw [List.map_cons] at hnd
    have hnd2 := List.nodup_cons.mp hnd
    rw [List.filter_cons]
    by_cases h : r.id = fid
    · have hcond : (!(r.id == fid)) = false := by simp [h]
      rw [hcond]
      have hrest : rest.filter (fun x => !(x.id == fid)) = rest := by
        rw [List.filter_eq_self]
        intro x hx
        simp only [Bool.not_eq_true', beq_eq_false_iff_ne, ne_eq]
        intro e
        exact hnd2.1 (by rw [← h] at e; exact e ▸ List.mem_map_of_mem Row.id hx)
      simp only [if_neg Bool.false_ne_true, hrest, List.length_cons]
      exact Nat.le_refl _
    · have hcond : (!(r.id == fid)) = true := by simp [h]
      rw [hcond, if_pos rfl, List.length_cons, List.length_cons]
      exact Nat.succ_le_succ (ih hnd2.2)

theorem find?_append_of_none {α : Type} (p : α → Bool) (l1 l2 : List α)
    (h : l1.find? p = none) :
    (l1 ++ l2).find? p = l2.find? p := by
  induction l1 with
  | nil => rfl
  | cons a l1 ih =>
    rw [List.find?_cons] at h
    rw [List.cons_append, List.find?_cons]
    cases hp : p a with
    | true => rw [hp] at h; exact absurd h (by simp)
    | false =>
      rw [hp] at h
      exact ih h

/-! ## Publish batch helper -/

theorem sendAll_spec (msgs : List (Msg × ByteStr × Option GoError))
    (table : List Row) :
    (sendAll msgs table = .ok (table ++ msgs.filterMap rowOf) ∧
      (msgs.filterMap rowOf).length = msgs.length) ∨
    ∃ e, sendAll msgs table = .error e := by
  induction msgs generalizing table with
  | nil => exact Or.inl ⟨by simp [sendAll], rfl⟩
  | cons x rest ih =>
    obtain ⟨m, id, io⟩ := x
    cases hm : m.marshal with
    | error e =>
      refine Or.inr ⟨e, ?_⟩
      rw [sendAll, Send, hm]
    | ok b =>
      cases io with
      | some e =>
        refine Or.inr ⟨e, ?_⟩
        rw [sendAll, Send, hm]
      | none =>
        have hrow : rowOf (m, id, none) = some (sentRow m id b) := by
          rw [rowOf, hm]
        have hstep : sendAll ((m, id, none) :: rest) table =
            sendAll rest (table ++ [sentRow m id b]) := by
          rw [sendAll, Send, hm]
        rcases ih (table ++ [sentRow m id b]) with ⟨h1, h2⟩ | ⟨e, he⟩
        · refine Or.inl ⟨?_, ?_⟩
          · rw [hstep, h1, List.filterMap_cons, hrow, List.append_assoc,
              List.singleton_append]
          · rw [List.filterMap_cons, hrow, List.length_cons, h2, List.length_cons]
        · exact Or.inr ⟨e, by rw [hstep, he]⟩

/-! ## The claims -/

/-- C1: for every Send call with an active transaction, a payload that
fails to serialize returns the serialization error with no insert
attempted (the table is unchanged); a payload that serializes leads to
exactly one row (id, destination, encoded headers, payload bytes)
appended via the transaction, and an insert error is propagated
unchanged, leaving no row. -/
theorem C1_send_contract (m : Msg) (id : ByteStr) (io : Option GoError)
    (table : List Row) :
    (∀ e, m.marshal = .error e → Send m id io table = (some e, table)) ∧
    (∀ b, m.marshal = .ok b →
      (Send m id none table = (none, table ++ [sentRow m id b]) ∧
       ∀ e, io = some e → Send m id io table = (some e, table))) := by
  refine ⟨fun e he => ?_, fun b hb => ⟨?_, fun e he => ?_⟩⟩
  · rw [Send, he]
  · rw [Send, hb]
  · rw [Send, hb, he]

/-- Witness for C1 at concrete inputs: a failing marshal, a successful
send, and a failing insert. -/
theorem C1_send_contract_witness :
    Send { topic := [116], headers := [], marshal := .error (.external 5) }
        [105] none [] = (some (.external 5), []) ∧
    Send { topic := [116], headers := [], marshal := .ok [1, 2] }
        [105] none [] =
      (none,
        [sentRow { topic := [116], headers := [], marshal := .ok [1, 2] }
          [105] [1, 2]]) ∧
    Send { topic := [116], headers := [], marshal := .ok [1, 2] }
        [105] (some (.external 7)) [] = (some (.external 7), []) :=
  ⟨(C1_send_contract _ [105] none []).1 _ rfl,
    ((C1_send_contract _ [105] none []).2 [1, 2] rfl).1,
    ((C1_send_contract _ [105] (some (.external 7)) []).2 [1, 2] rfl).2 _ rfl⟩

/-- C7: Publish opens one fresh read-write transaction with
read-committed isolation, appends every message in input order inside
it, and commits; if any append fails the error aborts the whole batch,
so either all the messages' rows are appended or none are. -/
theorem C7_publish_batch (msgs : List (Msg × ByteStr × Option GoError))
    (table : List Row) :
    (Publish msgs table).1 =
      { readOnly := false, retryable := true, isolation := .readCommitted } ∧
    (((Publish msgs table).2 = (none, table ++ msgs.filterMap rowOf) ∧
        (msgs.filterMap rowOf).length = msgs.length) ∨
      ∃ e, (Publish msgs table).2 = (some e, table)) := by
  refine ⟨rfl, ?_⟩
  rcases sendAll_spec msgs table with ⟨h1, h2⟩ | ⟨e, he⟩
  · exact Or.inl ⟨by rw [Publish, h1], h2⟩
  · exact Or.inr ⟨e, by rw [Publish, he]⟩

/-- C8: PurgeAll unconditionally deletes every row, so AssertNoMessages
right after it always passes, from any starting table. -/
theorem C8_purge_then_assert (table : List Row) :
    AssertNoMessages (PurgeAll table) = true := rfl

/-- C3: a PopMessage that fails — no row for the requested destination,
or a stored service-header value differing from the one the expected
message declares — reports a descriptive error and deletes nothing:
the table after the call is the table before it. -/
theorem C3_pop_failure_no_delete (sh : ByteStr) (del : Option GoError)
    (message : TestMsg) (table : List Row) :
    ((∀ r ∈ table, r.destination ≠ message.topic) →
      PopMessage sh del message table =
        (some (.noRows message.topic), message, table)) ∧
    (∀ r, table.find? (fun x => x.destination == message.topic) = some r →
      mapGet message.headers sh ≠ valuesGet (parseQueryValues r.headers).1 sh →
      PopMessage sh del message table =
        (some (.headerMismatch sh (mapGet message.headers sh)
          (valuesGet (parseQueryValues r.headers).1 sh)), message, table)) := by
  constructor
  · intro hdest
    have hfind : table.find? (fun x => x.destination == message.topic) = none :=
      List.find?_eq_none.mpr (fun x hx => by simpa using hdest x hx)
    rw [PopMessage, hfind]
  · intro r hfind hne
    rw [PopMessage, hfind]
    dsimp only
    rw [if_pos hne]

/-- Witness for C3: an empty table, and a table whose single row stores
a service header differing from the expected message's. -/
theorem C3_pop_failure_no_delete_witness :
    PopMessage grpcServiceKey none ⟨[116], [], [], fun _ => none⟩ [] =
      (some (.noRows [116]), ⟨[116], [], [], fun _ => none⟩, []) ∧
    PopMessage grpcServiceKey none
        ⟨[116], [(grpcServiceKey, [98])], [], fun _ => none⟩
        [⟨[105], [116], [], [7]⟩] =
      (some (.headerMismatch grpcServiceKey [98] []),
        ⟨[116], [(grpcServiceKey, [98])], [], fun _ => none⟩,
        [⟨[105], [116], [], [7]⟩]) := by
  constructor
  · exact (C3_pop_failure_no_delete grpcServiceKey none _ []).1
      (fun r hr => by simp at hr)
  · exact (C3_pop_failure_no_delete grpcServiceKey none _ _).2
      ⟨[105], [116], [], [7]⟩ (by rfl) (by decide)

/-- C9: MessageMatch.Attempt compares the candidate's claimed service
name against the expected message's header under the fixed key
grpc-service, whatever the asserter's configured ServiceNameHeader is;
so PopMatching extracts the stored value under the configured key sh
and the matcher rejects whenever that value differs from the expected
value under grpc-service — even when sh is some other key. -/
theorem C9_matcher_fixed_key (sh : ByteStr) (m : MessageMatch) (r : Row)
    (s data : ByteStr) :
    (s ≠ mapGet m.target.headers grpcServiceKey →
      MessageMatch.Attempt m s data = (.ok false, m)) ∧
    (r.destination = m.target.topic →
      storedService sh r ≠ mapGet m.target.headers grpcServiceKey →
      popMatchingMM sh m [r] = (some (.noMatch m.target.topic), m, [r])) := by
  have hrej : ∀ s2, s2 ≠ mapGet m.target.headers grpcServiceKey →
      MessageMatch.Attempt m s2 data = (.ok false, m) := by
    intro s2 hs2
    rw [MessageMatch.Attempt, if_pos hs2]
  constructor
  · intro hs
    rw [MessageMatch.Attempt, if_pos hs]
  · intro hdest hmis
    have hfil : [r].filter (fun x => x.destination == m.target.topic) = [r] := by
      simp [List.filter_cons, hdest]
    have h1 : MessageMatch.Attempt m (storedService sh r) r.message =
        (.ok false, m) := by
      rw [MessageMatch.Attempt, if_pos hmis]
    have h2 : popLoop sh (fun st sn d => MessageMatch.Attempt st sn d) [r] m =
        (.ok none, m) := by
      rw [popLoop_cons, h1]
      rfl
    rw [popMatchingMM, PopMatching_eq, hfil, h2]

/-- Witness for C9: a configured key differing from grpc-service; the
row stores the expected service name under grpc-service itself, so the
configured-key extraction comes up empty and the matcher rejects. -/
theorem C9_matcher_fixed_key_witness :
    MessageMatch.Attempt
        ⟨⟨[116], [(grpcServiceKey, [111])], [], fun _ => none⟩, []⟩ [99] [7] =
      (.ok false,
        ⟨⟨[116], [(grpcServiceKey, [111])], [], fun _ => none⟩, []⟩) ∧
    popMatchingMM [120]
        ⟨⟨[116], [(grpcServiceKey, [111])], [], fun _ => none⟩, []⟩
        [⟨[105], [116],
          valuesEncode (addAllHeaders [(grpcServiceKey, [111])]), [7]⟩] =
      (some (.noMatch [116]),
        ⟨⟨[116], [(grpcServiceKey, [111])], [], fun _ => none⟩, []⟩,
        [⟨[105], [116],
          valuesEncode (addAllHeaders [(grpcServiceKey, [111])]), [7]⟩]) := by
  constructor
  · exact (C9_matcher_fixed_key [120]
      ⟨⟨[116], [(grpcServiceKey, [111])], [], fun _ => none⟩, []⟩
      ⟨[], [], [], []⟩ [99] [7]).1 (by decide)
  · exact (C9_matcher_fixed_key [120]
      ⟨⟨[116], [(grpcServiceKey, [111])], [], fun _ => none⟩, []⟩
      ⟨[105], [116],
        valuesEncode (addAllHeaders [(grpcServiceKey, [111])]), [7]⟩ [] []).2
      (by rfl) (by rw [storedService]; decide)

/-- C10: both pops can mutate the caller-supplied target although the
pop fails: a PopMessage whose delete fails returns the error with the
table unchanged but the message already filled with the row's payload;
MessageMatch.Attempt writes the decoded candidate into its target
before evaluating the predicates, so a predicate-rejected row — and a
PopMatching that then fails with no match — leaves the target holding
that rejected row's content. -/
theorem C10_pop_mutates_on_failure (sh : ByteStr) (e : GoError)
    (message : TestMsg) (table : List Row) (r : Row) (m : MessageMatch)
    (s data : ByteStr) :
    (table.find? (fun x => x.destination == message.topic) = some r →
      mapGet message.headers sh = valuesGet (parseQueryValues r.headers).1 sh →
      message.unmarshal r.message = none →
      PopMessage sh (some e) message table =
        (some e, { message with content := r.message }, table)) ∧
    (s = mapGet m.target.headers grpcServiceKey →
      m.target.unmarshal data = none →
      (MessageMatch.Attempt m s data).2 =
        { m with target := { m.target with content := data } }) ∧
    (r.destination = m.target.topic →
      storedService sh r = mapGet m.target.headers grpcServiceKey →
      m.target.unmarshal r.message = none →
      (m.conditions.all (fun c => c { m.target with content := r.message }))
        = false →
      popMatchingMM sh m [r] =
        (some (.noMatch m.target.topic),
          { m with target := { m.target with content := r.message } }, [r])) := by
  refine ⟨?_, ?_, ?_⟩
  · intro hfind heq hdec
    rw [PopMessage, hfind]
    dsimp only
    rw [if_neg (fun hcon => hcon heq), hdec]
  · intro hs hdec
    rw [MessageMatch.Attempt, if_neg (fun hcon => hcon hs), hdec]
  · intro hdest hstored hdec hcond
    have hfil : [r].filter (fun x => x.destination == m.target.topic) = [r] := by
      simp [List.filter_cons, hdest]
    have h1 : MessageMatch.Attempt m (storedService sh r) r.message =
        (.ok false, { m with target := { m.target with content := r.message } }) := by
      rw [MessageMatch.Attempt, if_neg (fun hcon => hcon hstored), hdec]
      dsimp only
      rw [hcond]
    have h2 : popLoop sh (fun st sn d => MessageMatch.Attempt st sn d) [r] m =
        (.ok none,
          { m with target := { m.target with content := r.message } }) := by
      rw [popLoop_cons, h1]
      rfl
    rw [popMatchingMM, PopMatching_eq, hfil, h2]

/-- Witness for C10 at concrete inputs: a failing delete after a decode,
and a predicate-rejected no-match pop, each leaving the target mutated. -/
theorem C10_pop_mutates_on_failure_witness :
    PopMessage grpcServiceKey (some (.external 3))
        ⟨[116], [], [], fun _ => none⟩ [⟨[105], [116], [], [7]⟩] =
      (some (.external 3), ⟨[116], [], [7], fun _ => none⟩,
        [⟨[105], [116], [], [7]⟩]) ∧
    popMatchingMM grpcServiceKey
        ⟨⟨[116], [], [], fun _ => none⟩, [fun _ => false]⟩
        [⟨[105], [116], [], [7]⟩] =
      (some (.noMatch [116]),
        ⟨⟨[116], [], [7], fun _ => none⟩, [fun _ => false]⟩,
        [⟨[105], [116], [], [7]⟩]) := by
  constructor
  · exact (C10_pop_mutates_on_failure grpcServiceKey (.external 3) _ _
      ⟨[105], [116], [], [7]⟩ ⟨⟨[116], [], [], fun _ => none⟩, []⟩ [] []).1
      (by rfl) (by decide) (by rfl)
  · exact (C10_pop_mutates_on_failure grpcServiceKey (.external 3)
      ⟨[], [], [], fun _ => none⟩ [] ⟨[105], [116], [], [7]⟩
      ⟨⟨[116], [], [], fun _ => none⟩, [fun _ => false]⟩ [] []).2.2
      (by rfl) (by rw [storedService]; decide) (by rfl) (by rfl)

/-- C2: a message appended by Send and then popped by PopMessage for
the same destination, with the expected message declaring the same
service-header value and decoding the payload, succeeds: the caller's
message is filled with the sent payload byte-for-byte and the matched
row is deleted within the pop's single transaction, returning the
table to its pre-send state. -/
theorem C2_send_then_pop (m : Msg) (id b : ByteStr) (table : List Row)
    (target : TestMsg) (sh : ByteStr)
    (hok : m.marshal = .ok b)
    (hnd : (m.headers.map Prod.fst).Nodup)
    (hb : ∀ p ∈ m.headers, isBytes p.1 ∧ isBytes p.2)
    (hdest : ∀ r ∈ table, r.destination ≠ m.topic)
    (hid : ∀ r ∈ table, r.id ≠ id)
    (htopic : target.topic = m.topic)
    (hhdr : mapGet target.headers sh = mapGet m.headers sh)
    (hdec : target.unmarshal b = none) :
    Send m id none table = (none, table ++ [sentRow m id b]) ∧
    PopMessage sh none target (table ++ [sentRow m id b]) =
      (none, { target with content := b }, table) := by
  constructor
  · rw [Send, hok]
  · have hfb : table.find? (fun x => x.destination == target.topic) = none :=
      List.find?_eq_none.mpr (fun x hx => by
        simp only [beq_iff_eq, htopic]
        exact hdest x hx)
    have hfind : (table ++ [sentRow m id b]).find?
        (fun x => x.destination == target.topic) = some (sentRow m id b) := by
      rw [find?_append_of_none _ _ _ hfb,
        List.find?_cons_of_pos _ (by simp [sentRow, htopic])]
    rw [PopMessage, hfind]
    dsimp only
    have hstored : valuesGet
        (parseQueryValues (valuesEncode (addAllHeaders m.headers))).1 sh =
        mapGet m.headers sh :=
      storedHeader_eq_mapGet m.headers hnd hb sh
    have hfilter : (table ++ [sentRow m id b]).filter
        (fun x => !(x.id == id)) = table := by
      rw [List.filter_append]
      have h1 : table.filter (fun x => !(x.id == id)) = table := by
        rw [List.filter_eq_self]
        intro x hx
        simp [hid x hx]
      have h2 : [sentRow m id b].filter (fun x => !(x.id == id)) = [] := by
        simp [List.filter_cons, sentRow]
      rw [h1, h2, List.append_nil]
    rw [show (sentRow m id b).headers = valuesEncode (addAllHeaders m.headers)
        from rfl,
      show (sentRow m id b).message = b from rfl,
      show (sentRow m id b).id = id from rfl,
      hstored, if_neg (fun hcon => hcon hhdr), hdec, hfilter]

/-- Witness for C2: a concrete message with a grpc-service header and a
two-byte payload, sent into an empty table and popped right back. -/
theorem C2_send_then_pop_witness :
    Send ⟨[116], [(grpcServiceKey, [111])], .ok [1, 2]⟩ [105] none [] =
      (none, [sentRow ⟨[116], [(grpcServiceKey, [111])], .ok [1, 2]⟩
        [105] [1, 2]]) ∧
    PopMessage grpcServiceKey none
        ⟨[116], [(grpcServiceKey, [111])], [], fun _ => none⟩
        ([] ++ [sentRow ⟨[116], [(grpcServiceKey, [111])], .ok [1, 2]⟩
          [105] [1, 2]]) =
      (none, ⟨[116], [(grpcServiceKey, [111])], [1, 2], fun _ => none⟩, []) :=
  C2_send_then_pop ⟨[116], [(grpcServiceKey, [111])], .ok [1, 2]⟩ [105] [1, 2]
    [] ⟨[116], [(grpcServiceKey, [111])], [], fun _ => none⟩ grpcServiceKey
    rfl (by decide) (by decide) (fun r hr => absurd hr (by simp))
    (fun r hr => absurd hr (by simp)) rfl rfl rfl

/-- The two outcomes of PopMatching: a failure leaving the table
untouched, or a deletion of the accepted id from the table. -/
theorem PopMatching_cases {σ : Type} (sh topic : ByteStr)
    (att : σ → ByteStr → ByteStr → Except GoError Bool × σ) (s : σ)
    (table : List Row) :
    (∃ s2 e, PopMatching sh topic att s table = (some e, s2, table)) ∨
    (∃ s2 fid, fid ≠ [] ∧
      popLoop sh att (table.filter (fun r => r.destination == topic)) s =
        (.ok (some fid), s2) ∧
      PopMatching sh topic att s table =
        (none, s2, table.filter (fun r => !(r.id == fid)))) := by
  rw [PopMatching_eq]
  rcases hpl : popLoop sh att (table.filter (fun r => r.destination == topic)) s
    with ⟨res, s2⟩
  cases res with
  | error e => exact Or.inl ⟨s2, e, rfl⟩
  | ok ob =>
    cases ob with
    | none => exact Or.inl ⟨s2, .noMatch topic, rfl⟩
    | some fid =>
      by_cases hf : fid = []
      · refine Or.inl ⟨s2, .noMatch topic, ?_⟩
        dsimp only
        rw [if_pos hf]
      · refine Or.inr ⟨s2, fid, hf, rfl, ?_⟩
        dsimp only
        rw [if_neg hf]

/-- C4: over any stored rows, PopMatching deletes at most one row, and
a deleted row is exactly the first row in read order accepted by the
matcher (after the attempts on the rejected prefix); rows after the
accepted one are never evaluated (the loop's outcome is the same for
every continuation); and when every candidate is rejected the call
fails with the no-match error and deletes nothing. -/
theorem C4_pop_matching_first_accepted {σ : Type} (sh topic : ByteStr)
    (att : σ → ByteStr → ByteStr → Except GoError Bool × σ) (s : σ)
    (table : List Row) :
    ((PopMatching sh topic att s table).2.2.Sublist table ∧
      ((table.map Row.id).Nodup →
        table.length ≤ (PopMatching sh topic att s table).2.2.length + 1)) ∧
    ((PopMatching sh topic att s table).1 = none →
      ∃ pre r post s0,
        table.filter (fun x => x.destination == topic) = pre ++ r :: post ∧
        runRejects sh att pre s = some s0 ∧
        (att s0 (storedService sh r) r.message).1 = .ok true ∧
        (PopMatching sh topic att s table).2.2 =
          table.filter (fun x => !(x.id == r.id))) ∧
    (∀ pre r post post2 s0,
      runRejects sh att pre s = some s0 →
      (att s0 (storedService sh r) r.message).1 = .ok true →
      popLoop sh att (pre ++ r :: post) s =
        popLoop sh att (pre ++ r :: post2) s) ∧
    (∀ s2,
      runRejects sh att (table.filter (fun x => x.destination == topic)) s =
        some s2 →
      PopMatching sh topic att s table = (some (.noMatch topic), s2, table)) := by
  refine ⟨?_, ?_, ?_, ?_⟩
  · rcases PopMatching_cases sh topic att s table with
      ⟨s2, e, heq⟩ | ⟨s2, fid, hf, hpl, heq⟩
    · rw [heq]
      exact ⟨List.Sublist.refl _, fun _ => Nat.le_succ _⟩
    · rw [heq]
      exact ⟨List.filter_sublist _, fun hnd => length_filter_id table fid hnd⟩
  · intro hnone
    rcases PopMatching_cases sh topic att s table with
      ⟨s2, e, heq⟩ | ⟨s2, fid, hf, hpl, heq⟩
    · rw [heq] at hnone
      exact absurd hnone (by simp)
    · rcases popLoop_ok_some sh att _ s fid s2 hpl with
        ⟨pre, r, post, s0, hsplit, hrej, hacc, hfid⟩
      refine ⟨pre, r, post, s0, hsplit, hrej,
        by rw [congrArg Prod.fst hacc], ?_⟩
      rw [heq, hfid]
  · intro pre r post post2 s0 hrej hacc
    rw [popLoop_stops sh att pre r s s0 hrej hacc post,
      popLoop_stops sh att pre r s s0 hrej hacc post2]
  · intro s2 hrun
    have hpl := (popLoop_ok_none sh att _ s s2).mpr hrun
    rw [PopMatching_eq, hpl]

/-- Witness for C4: a single candidate, rejected by the matcher, so the
pop reports no match and deletes nothing; the table keeps its row. -/
theorem C4_pop_matching_first_accepted_witness :
    PopMatching [] [116]
        (fun n _ d => (.ok (d == [7]), n + 1) :
          Nat → ByteStr → ByteStr → Except GoError Bool × Nat) 0
        [⟨[105], [116], [], [5]⟩] =
      (some (.noMatch [116]), 1, [⟨[105], [116], [], [5]⟩]) ∧
    ([⟨[105], [116], [], [5]⟩] : List Row).length ≤
      (PopMatching [] [116]
        (fun n _ d => (.ok (d == [7]), n + 1) :
          Nat → ByteStr → ByteStr → Except GoError Bool × Nat) 0
        [⟨[105], [116], [], [5]⟩]).2.2.length + 1 := by
  have h := C4_pop_matching_first_accepted [] [116]
    (fun n _ d => (.ok (d == [7]), n + 1) :
      Nat → ByteStr → ByteStr → Except GoError Bool × Nat) 0
    [⟨[105], [116], [], [5]⟩]
  exact ⟨h.2.2.2 1 (by rfl), h.1.2 (by decide)⟩

/-- C6: an attempt error on a candidate row aborts the whole pop with
that error and deletes nothing; the result is the same whatever rows
follow the failing candidate, so none of them is ever considered. -/
theorem C6_attempt_error_aborts {σ : Type} (sh topic : ByteStr)
    (att : σ → ByteStr → ByteStr → Except GoError Bool × σ) (s : σ)
    (table : List Row) (pre post : List Row) (r : Row) (s0 : σ) (e : GoError)
    (hsplit : table.filter (fun x => x.destination == topic) = pre ++ r :: post)
    (hrej : runRejects sh att pre s = some s0)
    (herr : (att s0 (storedService sh r) r.message).1 = .error e) :
    PopMatching sh topic att s table =
      (some e, (att s0 (storedService sh r) r.message).2, table) := by
  rw [PopMatching_eq, hsplit, popLoop_append_rejects sh att pre _ s s0 hrej,
    popLoop_cons, herr]

/-- Witness for C6: a matcher whose decode fails on the only candidate:
the pop reports that error and the row stays. -/
theorem C6_attempt_error_aborts_witness :
    PopMatching [] [116]
        (fun n _ d => (if d = [7] then (.error (.external 9), n)
          else (.ok false, n + 1)) :
          Nat → ByteStr → ByteStr → Except GoError Bool × Nat) 0
        [⟨[105], [116], [], [7]⟩] =
      (some (.external 9), 0, [⟨[105], [116], [], [7]⟩]) := by
  have h := C6_attempt_error_aborts [] [116]
    (fun n _ d => (if d = [7] then (.error (.external 9), n)
      else (.ok false, n + 1)) :
      Nat → ByteStr → ByteStr → Except GoError Bool × Nat) 0
    [⟨[105], [116], [], [7]⟩] [] [] ⟨[105], [116], [], [7]⟩ 0 (.external 9)
    (by rfl) (by rfl) (by rfl)
  exact h

/-- C5: the header codec round-trips: for every header map with
byte-string keys and values and Go-map-distinct keys, encoding with
url.Values.Encode then decoding with url.ParseQuery yields the
original map — the same value list under every key, repeated keys
preserved in order — and no error; decoding the empty input yields the
empty map and no error. -/
theorem C5_header_codec_roundtrip (vs : Values) (hb : bytesValues vs)
    (hn : (vs.map Prod.fst).Nodup) :
    ((parseQueryValues (valuesEncode vs)).2 = false ∧
      ∀ k, valuesGetAll (parseQueryValues (valuesEncode vs)).1 k =
        valuesGetAll vs k) ∧
    parseQueryValues [] = ([], false) :=
  ⟨values_roundtrip_getAll vs hb hn, rfl⟩

/-- Witness for C5: the repeated-key map a to 1, 2 and the two-key map
a to 1, b to 2 both round-trip concretely. -/
theorem C5_header_codec_roundtrip_witness :
    valuesGetAll
      (parseQueryValues (valuesEncode [([97], [[49], [50]])])).1 [97] =
      [[49], [50]] ∧
    valuesGetAll
      (parseQueryValues (valuesEncode [([97], [[49]]), ([98], [[50]])])).1
      [98] = [[50]] ∧
    (parseQueryValues (valuesEncode [([97], [[49], [50]])])).2 = false := by
  have h1 := C5_header_codec_roundtrip [([97], [[49], [50]])]
    (by decide) (by decide)
  have h2 := C5_header_codec_roundtrip [([97], [[49]]), ([98], [[50]])]
    (by decide) (by decide)
  refine ⟨?_, ?_, h1.1.1⟩
  · rw [h1.1.2 [97]]
    rfl
  · rw [h2.1.2 [98]]
    rfl

end OutboxPG
